import Mathlib

/-!
Verification of the dynamo-table expression compiler.

This file gives a shallow embedding of the expression-compiler layer of the
repository and proves the specified properties about it.  The embedded
functions mirror, line by line:
  * `createExpressionBuilder` (expression.ts): placeholder registry,
    path tokenization, comparison / string / range / existence / size
    operators, and the logical combinators;
  * `buildUpdateExpression` (utils.ts of the command-builder variant):
    the SET/REMOVE update compiler;
  * `buildKeyConditionExpression`, `buildQueryCommand` and
    `applyFilterExpressionWithMerge` (commands.ts): the key-condition
    compiler and the query-command assembly with last-write-wins merges.

JavaScript string-keyed objects are modelled as insertion-ordered
association lists; JS string primitives (`split('.')`, `trim()`,
`startsWith('(')`, `endsWith(')')`, `Array.join`) are modelled by
structurally recursive functions over the character list of a `String`,
so that every definition evaluates inside the kernel.
-/

namespace DynamoTable

/-! ### Association lists modelling JS objects -/

/-- Lookup in an insertion-ordered association list (JS `obj[k]`). -/
def lookupA {α : Type} : List (String × α) → String → Option α
  | [], _ => none
  | (k', v) :: rest, k => if k' = k then some v else lookupA rest k

/-- Assignment `obj[k] = v` on a JS object: overwrite in place when the key
exists (keeping its position), otherwise append at the end. -/
def insertA {α : Type} : List (String × α) → String → α → List (String × α)
  | [], k, v => [(k, v)]
  | (k', v') :: rest, k, v =>
    if k' = k then (k', v) :: rest else (k', v') :: insertA rest k v

/-- JS falsiness test `!obj[k]` for a string-valued object: the key is absent
or holds the empty string. -/
def falsyAt (names : List (String × String)) (k : String) : Bool :=
  match lookupA names k with
  | none => true
  | some v => v = ""

/-! ### JS string primitives, modelled on character lists -/

/-- `Array.prototype.join(sep)`. -/
def joinSep (sep : String) : List String → String
  | [] => ""
  | [x] => x
  | x :: y :: rest => x ++ sep ++ joinSep sep (y :: rest)

/-- `String.prototype.split` with a single-character separator, on the
character list.  `split` of the empty string yields one empty segment. -/
def splitOnChar (sep : Char) : List Char → List (List Char)
  | [] => [[]]
  | c :: rest =>
    let r := splitOnChar sep rest
    if c = sep then [] :: r
    else
      match r with
      | seg :: segs => (c :: seg) :: segs
      | [] => [[c]]

/-- `String.prototype.split('.')` on a `String`. -/
def splitDots (s : String) : List String :=
  (splitOnChar '.' s.data).map (fun l => ⟨l⟩)

/-- `String.prototype.trim()`: drop whitespace from both ends. -/
def jsTrim (s : String) : String :=
  ⟨((s.data.dropWhile Char.isWhitespace).reverse.dropWhile Char.isWhitespace).reverse⟩

/-- `s.startsWith('(')` for a one-character prefix `c`. -/
def startsWithChar (s : String) (c : Char) : Bool :=
  s.data.head? = some c

/-- `s.endsWith(')')` for a one-character suffix `c`. -/
def endsWithChar (s : String) (c : Char) : Bool :=
  s.data.getLast? = some c

/-! ### Decimal representation of the value-placeholder counter -/

/-- The decimal digit characters used by JS template interpolation. -/
def digitChar : Nat → Char
  | 0 => '0' | 1 => '1' | 2 => '2' | 3 => '3' | 4 => '4'
  | 5 => '5' | 6 => '6' | 7 => '7' | 8 => '8' | _ => '9'

/-- Decimal digits of `n`, most significant first (fuel-based so the kernel
can evaluate it). -/
def natDigitsAux : Nat → Nat → List Char
  | 0, _ => []
  | fuel + 1, n =>
    if n < 10 then [digitChar n]
    else natDigitsAux fuel (n / 10) ++ [digitChar (n % 10)]

/-- Decimal representation of a natural number, as interpolated by
JS template literals. -/
def natRepr (n : Nat) : String := ⟨natDigitsAux (n + 1) n⟩

/-- Numeric value of a decimal digit character (decoder used only in proofs). -/
def charVal : Char → Nat
  | '0' => 0 | '1' => 1 | '2' => 2 | '3' => 3 | '4' => 4
  | '5' => 5 | '6' => 6 | '7' => 7 | '8' => 8 | '9' => 9
  | _ => 0

/-- Decimal decoder (used only in proofs, as a left inverse of `natDigitsAux`). -/
def decodeDigits (acc : Nat) (l : List Char) : Nat :=
  l.foldl (fun a c => 10 * a + charVal c) acc

/-- The value placeholder `:val<N>` minted for counter value `n`
(expression.ts, `getValueName`). -/
def valKey (n : Nat) : String := ":val" ++ natRepr n

/-! ### The expression-builder state (expression.ts, `createExpressionBuilder`) -/

/-- Mutable closure state of one expression builder: the name map, the value
map and the value counter. -/
structure BuilderState (α : Type) where
  names : List (String × String)
  values : List (String × α)
  counter : Nat
deriving DecidableEq

/-- A freshly created builder (`createExpressionBuilder()`). -/
def freshBuilder (α : Type) : BuilderState α := ⟨[], [], 0⟩

/-- Path tokenization of `getAttrName`: split on `.`, trim each segment and
drop the empty ones (`attr.split('.').map(s => s.trim()).filter(Boolean)`). -/
def trimSegments (attr : String) : List String :=
  ((splitDots attr).map jsTrim).filter (fun s => s ≠ "")

/-- One registration step of `getAttrName`: mint `#<seg>` when absent or
falsy, under the source's `if (!names[key]) names[key] = seg` check. -/
def registerSeg (names : List (String × String)) (seg : String) :
    List (String × String) :=
  let key := "#" ++ seg
  if falsyAt names key then insertA names key seg else names

/-- Register every segment of a tokenized path, left to right. -/
def registerSegs (names : List (String × String)) :
    List String → List (String × String)
  | [] => names
  | seg :: rest => registerSegs (registerSeg names seg) rest

/-- The attribute reference returned for a tokenized path:
`segments.map(seg => '#' + seg).join('.')`. -/
def attrRefOf (segs : List String) : String :=
  joinSep "." (segs.map (fun seg => "#" ++ seg))

/-- `getAttrName` (expression.ts): returns the attribute reference and the
updated name map.  An empty tokenization yields the degenerate `#`
placeholder recorded with the empty string. -/
def getAttrName (names : List (String × String)) (attr : String) :
    String × List (String × String) :=
  let segs := trimSegments attr
  if segs.isEmpty then
    ("#", if falsyAt names "#" then insertA names "#" "" else names)
  else
    (attrRefOf segs, registerSegs names segs)

/-- The attribute reference text alone (state independent). -/
def attrText (attr : String) : String :=
  let segs := trimSegments attr
  if segs.isEmpty then "#" else attrRefOf segs

/-- `getValueName` (expression.ts): mint `:val<counter>`, record the value,
bump the counter. -/
def getValueName {α : Type} (s : BuilderState α) (v : α) :
    String × BuilderState α :=
  let key := valKey s.counter
  (key, { s with values := insertA s.values key v, counter := s.counter + 1 })

/-- Run `getAttrName` against a builder state. -/
def applyAttr {α : Type} (s : BuilderState α) (attr : String) :
    String × BuilderState α :=
  ((getAttrName s.names attr).1, { s with names := (getAttrName s.names attr).2 })

/-- `compare(op)` (expression.ts): `<attrRef> <op> <valRef>`. -/
def compareOp {α : Type} (op : String) (attr : String) (v : α)
    (s : BuilderState α) : String × BuilderState α :=
  let p1 := applyAttr s attr
  let p2 := getValueName p1.2 v
  (p1.1 ++ " " ++ op ++ " " ++ p2.1, p2.2)

/-- `fn(funcName)` (expression.ts): `funcName(<attrRef>, <valRef>)`. -/
def fnOp {α : Type} (funcName : String) (attr : String) (v : α)
    (s : BuilderState α) : String × BuilderState α :=
  let p1 := applyAttr s attr
  let p2 := getValueName p1.2 v
  (funcName ++ "(" ++ p1.1 ++ ", " ++ p2.1 ++ ")", p2.2)

/-- `sizeCompare(op)` (expression.ts): `size(<attrRef>) <op> <valRef>`. -/
def sizeCompareOp {α : Type} (op : String) (attr : String) (v : α)
    (s : BuilderState α) : String × BuilderState α :=
  let p1 := applyAttr s attr
  let p2 := getValueName p1.2 v
  ("size(" ++ p1.1 ++ ") " ++ op ++ " " ++ p2.1, p2.2)

/-- `singleAttributeFunction(funcName)` (expression.ts):
`funcName(<attrRef>)`, no value allocation. -/
def singleAttrFn {α : Type} (funcName : String) (attr : String)
    (s : BuilderState α) : String × BuilderState α :=
  let p1 := applyAttr s attr
  (funcName ++ "(" ++ p1.1 ++ ")", p1.2)

/-- `between` (expression.ts): two values allocated in call order. -/
def betweenOp {α : Type} (attr : String) (lo hi : α) (s : BuilderState α) :
    String × BuilderState α :=
  let p1 := applyAttr s attr
  let p2 := getValueName p1.2 lo
  let p3 := getValueName p2.2 hi
  (p1.1 ++ " BETWEEN " ++ p2.1 ++ " AND " ++ p3.1, p3.2)

/-- Allocate one value placeholder per entry, in list order. -/
def allocValues {α : Type} (s : BuilderState α) :
    List α → List String × BuilderState α
  | [] => ([], s)
  | v :: rest =>
    let p1 := getValueName s v
    let p2 := allocValues p1.2 rest
    (p1.1 :: p2.1, p2.2)

/-- `in` (expression.ts): filter out `undefined` (modelled as `none`), fail
on an empty remainder with a message that distinguishes an empty input list,
otherwise allocate one placeholder per retained entry. -/
def inOp {α : Type} (attr : String) (vals : List (Option α))
    (s : BuilderState α) : Except String (String × BuilderState α) :=
  let filtered := vals.filterMap id
  if filtered.isEmpty then
    .error (if vals.isEmpty then "in() requires at least one value"
            else "in() requires at least one non-undefined value")
  else
    let p1 := applyAttr s attr
    let p2 := allocValues p1.2 filtered
    .ok (p1.1 ++ " IN (" ++ joinSep ", " p2.1 ++ ")", p2.2)

/-- `logical(op, name)` (expression.ts): zero fragments fail, otherwise join
with ` <op> ` inside one parenthesis pair. -/
def logicalOp (op : String) (nm : String) (conds : List String) :
    Except String String :=
  if conds.isEmpty then .error (nm ++ "() requires at least one condition")
  else .ok ("(" ++ joinSep (" " ++ op ++ " ") conds ++ ")")

/-- `not` (expression.ts): reuse the parenthesis pair when the trimmed
fragment starts with `(` and ends with `)`, else wrap the raw fragment. -/
def notOp (condition : String) : String :=
  let t := jsTrim condition
  if startsWithChar t '(' && endsWithChar t ')' then "NOT " ++ t
  else "NOT (" ++ condition ++ ")"

/-- One call on the expression builder, with its arguments. -/
inductive Op (α : Type) where
  | eqOp (attr : String) (v : α)
  | neOp (attr : String) (v : α)
  | ltOp (attr : String) (v : α)
  | lteOp (attr : String) (v : α)
  | gtOp (attr : String) (v : α)
  | gteOp (attr : String) (v : α)
  | beginsWithOp (attr : String) (v : α)
  | containsOp (attr : String) (v : α)
  | betweenO (attr : String) (lo hi : α)
  | inListOp (attr : String) (vals : List (Option α))
  | existsOp (attr : String)
  | notExistsOp (attr : String)
  | attributeTypeOp (attr : String) (v : α)
  | sizeOp (attr : String)
  | sizeGtOp (attr : String) (v : α)
  | sizeLtOp (attr : String) (v : α)
  | sizeGteOp (attr : String) (v : α)
  | sizeLteOp (attr : String) (v : α)
  | andFrag (conds : List String)
  | orFrag (conds : List String)
  | notFrag (cond : String)

/-- Dispatch one builder call, as wired up in the object literal returned by
`createExpressionBuilder`.  A thrown `TypeError` is an `error` result. -/
def step {α : Type} (s : BuilderState α) : Op α →
    Except String (String × BuilderState α)
  | .eqOp a v => .ok (compareOp "=" a v s)
  | .neOp a v => .ok (compareOp "<>" a v s)
  | .ltOp a v => .ok (compareOp "<" a v s)
  | .lteOp a v => .ok (compareOp "<=" a v s)
  | .gtOp a v => .ok (compareOp ">" a v s)
  | .gteOp a v => .ok (compareOp ">=" a v s)
  | .beginsWithOp a v => .ok (fnOp "begins_with" a v s)
  | .containsOp a v => .ok (fnOp "contains" a v s)
  | .betweenO a lo hi => .ok (betweenOp a lo hi s)
  | .inListOp a vs => inOp a vs s
  | .existsOp a => .ok (singleAttrFn "attribute_exists" a s)
  | .notExistsOp a => .ok (singleAttrFn "attribute_not_exists" a s)
  | .attributeTypeOp a v => .ok (fnOp "attribute_type" a v s)
  | .sizeOp a => .ok (singleAttrFn "size" a s)
  | .sizeGtOp a v => .ok (sizeCompareOp ">" a v s)
  | .sizeLtOp a v => .ok (sizeCompareOp "<" a v s)
  | .sizeGteOp a v => .ok (sizeCompareOp ">=" a v s)
  | .sizeLteOp a v => .ok (sizeCompareOp "<=" a v s)
  | .andFrag conds => (logicalOp "AND" "and" conds).map (fun f => (f, s))
  | .orFrag conds => (logicalOp "OR" "or" conds).map (fun f => (f, s))
  | .notFrag c => .ok (notOp c, s)

/-- The builder state after one call; a throwing call leaves the state
untouched (the source throws before any mutation). -/
def stateAfter {α : Type} (s : BuilderState α) (op : Op α) : BuilderState α :=
  match step s op with
  | .ok (_, s') => s'
  | .error _ => s

/-- The builder state after a sequence of calls. -/
def runOps {α : Type} (s : BuilderState α) : List (Op α) → BuilderState α
  | [] => s
  | op :: rest => runOps (stateAfter s op) rest

/-- Value-placeholder discipline: the value map's keys are exactly
`:val0 … :val(counter-1)` in order. -/
def goodValues {α : Type} (s : BuilderState α) : Prop :=
  s.values.map Prod.fst = (List.range s.counter).map valKey

/-! ### The update compiler (utils.ts, `buildUpdateExpression`) -/

/-- Accumulator of the `for (const [key, value] of Object.entries(updates))`
loop: SET clauses, REMOVE clauses, the builder's two maps and the local
`valueCounter`. -/
structure UpdateAcc (α : Type) where
  sets : List String
  removes : List String
  names : List (String × String)
  values : List (String × α)
  counter : Nat
deriving DecidableEq

/-- Attribute reference used by the update compiler for one key:
`key.split('.')` (no trimming, no filtering) joined as `#seg` parts. -/
def updateAttrRef (key : String) : String :=
  joinSep "." ((splitDots key).map (fun seg => "#" ++ seg))

/-- The loop body of `buildUpdateExpression`: null/undefined (modelled as
`none`) appends a REMOVE clause, anything else allocates `:val<counter>`
from the local counter and appends a SET clause. -/
def processUpdates {α : Type} : List (String × Option α) → UpdateAcc α → UpdateAcc α
  | [], acc => acc
  | (key, val) :: rest, acc =>
    let names' := registerSegs acc.names (splitDots key)
    let a := updateAttrRef key
    match val with
    | none =>
      processUpdates rest { acc with names := names', removes := acc.removes ++ [a] }
    | some v =>
      let vk := valKey acc.counter
      processUpdates rest
        { acc with names := names', values := insertA acc.values vk v,
                   counter := acc.counter + 1, sets := acc.sets ++ [a ++ " = " ++ vk] }

/-- The `parts` array of `buildUpdateExpression`: a `SET …` entry when any
SET clause exists, then a `REMOVE …` entry when any REMOVE clause exists. -/
def updateParts {α : Type} (acc : UpdateAcc α) : List String :=
  (if acc.sets.isEmpty then [] else ["SET " ++ joinSep ", " acc.sets]) ++
  (if acc.removes.isEmpty then [] else ["REMOVE " ++ joinSep ", " acc.removes])

/-- `buildUpdateExpression(updates, builder)` (utils.ts): run the loop, emit
`SET …` and/or `REMOVE …` joined by one space, throw on an empty result. -/
def buildUpdateExpression {α : Type} (updates : List (String × Option α))
    (names : List (String × String)) (values : List (String × α)) :
    Except String (String × List (String × String) × List (String × α)) :=
  if (updateParts (processUpdates updates ⟨[], [], names, values, 0⟩)).isEmpty then
    .error "UpdateExpression cannot be empty"
  else
    .ok (joinSep " " (updateParts (processUpdates updates ⟨[], [], names, values, 0⟩)),
      (processUpdates updates ⟨[], [], names, values, 0⟩).names,
      (processUpdates updates ⟨[], [], names, values, 0⟩).values)

/-! ### Key-condition and query-command assembly (commands.ts) -/

/-- A sort-key condition supplied through `createSortKeyConditionBuilder`:
the only operators the adapter exposes, each partially applied to the bound
sort-key attribute. -/
inductive SKCond (α : Type) where
  | eqC (v : α)
  | ltC (v : α)
  | lteC (v : α)
  | gtC (v : α)
  | gteC (v : α)
  | betweenC (lo hi : α)
  | beginsWithC (v : α)

/-- Apply a sort-key condition through the shared builder, exactly as the
adapter's partially applied methods do. -/
def applySKCond {α : Type} (skName : String) (s : BuilderState α) :
    SKCond α → String × BuilderState α
  | .eqC v => compareOp "=" skName v s
  | .ltC v => compareOp "<" skName v s
  | .lteC v => compareOp "<=" skName v s
  | .gtC v => compareOp ">" skName v s
  | .gteC v => compareOp ">=" skName v s
  | .betweenC lo hi => betweenOp skName lo hi s
  | .beginsWithC v => fnOp "begins_with" skName v s

/-- `buildKeyConditionExpression` (commands.ts): record `#<pk> → <pk>` and
`:pk → partitionKey` unconditionally, emit `#<pk> = :pk`, and append
` AND <skFragment>` when a sort-key condition is supplied. -/
def buildKeyConditionExpression {α : Type} (pkName : String) (pkValue : α)
    (skName : Option String) (skCond : Option (SKCond α)) (b : BuilderState α) :
    String × BuilderState α :=
  let s1 : BuilderState α :=
    { b with names := insertA b.names ("#" ++ pkName) pkName,
             values := insertA b.values ":pk" pkValue }
  let base := "#" ++ pkName ++ " = :pk"
  match skName, skCond with
  | some sk, some cond =>
    (base ++ " AND " ++ (applySKCond sk s1 cond).1, (applySKCond sk s1 cond).2)
  | _, _ => (base, s1)

/-- The slice of a `QueryCommand` input the expression compiler fills in. -/
structure QueryCommandInput (α : Type) where
  keyConditionExpression : String
  filterExpression : Option String
  expressionAttributeNames : List (String × String)
  expressionAttributeValues : List (String × α)
deriving DecidableEq

/-- JS object spread `{...a, ...b}`: start from `a` and assign every entry
of `b` in order — later writes win on key collision. -/
def mergeLWW {α : Type} (a b : List (String × α)) : List (String × α) :=
  b.foldl (fun acc p => insertA acc p.1 p.2) a

/-- `applyFilterExpressionWithMerge` (commands.ts): run the filter callback
on a fresh builder, then merge its name and value maps into the command
input with the filter's entries winning. -/
def applyFilterExpressionWithMerge {α : Type}
    (filter : BuilderState α → String × BuilderState α)
    (input : QueryCommandInput α) : QueryCommandInput α :=
  let p := filter (freshBuilder α)
  { input with
    filterExpression := some p.1,
    expressionAttributeNames := mergeLWW input.expressionAttributeNames p.2.names,
    expressionAttributeValues := mergeLWW input.expressionAttributeValues p.2.values }

/-- `buildQueryCommand` (commands.ts): fresh builder for the key condition,
then an optional filter applied with merge semantics. -/
def buildQueryCommand {α : Type} (pkName : String) (pkValue : α)
    (skName : Option String) (skCond : Option (SKCond α))
    (filter : Option (BuilderState α → String × BuilderState α)) :
    QueryCommandInput α :=
  let p := buildKeyConditionExpression pkName pkValue skName skCond (freshBuilder α)
  let input : QueryCommandInput α := ⟨p.1, none, p.2.names, p.2.values⟩
  match filter with
  | some f => applyFilterExpressionWithMerge f input
  | none => input

/-! ### Spec-side definitions (used to state refinement-style claims) -/

/-- Modelled from the spec: a fragment is "wholly wrapped in a single outer
parenthesis pair" when its trimmed form starts with `(`, ends with `)`, and
the opening parenthesis's matching close is the final character (the
parenthesis depth never returns to zero before the end). -/
def balancedToEnd : List Char → Nat → Bool
  | [], _ => false
  | [c], d => c = ')' && d = 1
  | c :: rest, d =>
    if c = ')' then
      if d = 1 then false else balancedToEnd rest (d - 1)
    else if c = '(' then balancedToEnd rest (d + 1)
    else balancedToEnd rest d

/-- Modelled from the spec: trim-insensitive whole-fragment wrapping test
used by the claim about `not`. -/
def specWhollyWrapped (s : String) : Bool :=
  match (jsTrim s).data with
  | c :: rest => c = '(' && balancedToEnd rest 1
  | [] => false

/-- The shape `:val<N>` required of value placeholders by the spec: the
decimal interpolation of some natural number after the `:val` prefix. -/
def IsValKey (k : String) : Prop := ∃ n : Nat, k = valKey n

/-- The shape `#<segment>` of every name placeholder. -/
def IsNameKey (k : String) : Prop := ∃ seg : String, k = "#" ++ seg

/-- The keys of an update map that carry a present (non-null) value, in
insertion order. -/
def keysWithSome {α : Type} (updates : List (String × Option α)) : List String :=
  updates.filterMap (fun p => p.2.map (fun _ => p.1))

/-- The values bound by a sort-key condition, in allocation order. -/
def skBoundValues {α : Type} : SKCond α → List α
  | .eqC v => [v]
  | .ltC v => [v]
  | .lteC v => [v]
  | .gtC v => [v]
  | .gteC v => [v]
  | .betweenC lo hi => [lo, hi]
  | .beginsWithC v => [v]

/-- The fragment text a sort-key condition produces when its first value
placeholder has index `start`. -/
def skFragText {α : Type} (skName : String) (start : Nat) : SKCond α → String
  | .eqC _ => attrText skName ++ " = " ++ valKey start
  | .ltC _ => attrText skName ++ " < " ++ valKey start
  | .lteC _ => attrText skName ++ " <= " ++ valKey start
  | .gtC _ => attrText skName ++ " > " ++ valKey start
  | .gteC _ => attrText skName ++ " >= " ++ valKey start
  | .betweenC _ _ =>
    attrText skName ++ " BETWEEN " ++ valKey start ++ " AND " ++ valKey (start + 1)
  | .beginsWithC _ =>
    "begins_with(" ++ attrText skName ++ ", " ++ valKey start ++ ")"

/-! ## Association-list lemmas -/

theorem lookupA_insertA_self {α : Type} (m : List (String × α)) (k : String) (v : α) :
    lookupA (insertA m k v) k = some v := by
  induction m with
  | nil => simp [insertA, lookupA]
  | cons p rest ih =>
    obtain ⟨k', v'⟩ := p
    by_cases h : k' = k
    · simp [insertA, lookupA, h]
    · simp [insertA, lookupA, h, ih]

theorem lookupA_insertA_ne {α : Type} (m : List (String × α)) (k k' : String)
    (v : α) (h : k' ≠ k) : lookupA (insertA m k' v) k = lookupA m k := by
  induction m with
  | nil => simp [insertA, lookupA, h]
  | cons p rest ih =>
    obtain ⟨k₀, v₀⟩ := p
    by_cases h0 : k₀ = k'
    · subst h0; simp [insertA, lookupA, h, Ne.symm h]
    · by_cases h1 : k₀ = k
      · simp [insertA, lookupA, h0, h1, Ne.symm h]
      · simp [insertA, lookupA, h0, h1, ih]

theorem insertA_of_lookupA_eq {α : Type} (m : List (String × α)) (k : String)
    (v : α) (h : lookupA m k = some v) : insertA m k v = m := by
  induction m with
  | nil => simp [lookupA] at h
  | cons p rest ih =>
    obtain ⟨k', v'⟩ := p
    by_cases h0 : k' = k
    · simp [lookupA, h0] at h
      simp [insertA, h0, h]
    · simp [lookupA, h0] at h
      simp [insertA, h0, ih h]

theorem insertA_of_lookupA_none {α : Type} (m : List (String × α)) (k : String)
    (v : α) (h : lookupA m k = none) : insertA m k v = m ++ [(k, v)] := by
  induction m with
  | nil => simp [insertA]
  | cons p rest ih =>
    obtain ⟨k', v'⟩ := p
    by_cases h0 : k' = k
    · simp [lookupA, h0] at h
    · simp [lookupA, h0] at h
      simp [insertA, h0, ih h]

theorem mem_insertA {α : Type} {m : List (String × α)} {k : String} {v : α}
    {p : String × α} (h : p ∈ insertA m k v) : p ∈ m ∨ p = (k, v) := by
  induction m with
  | nil => simp [insertA] at h; simp [h]
  | cons q rest ih =>
    obtain ⟨k', v'⟩ := q
    by_cases h0 : k' = k
    · simp [insertA, h0] at h
      rcases h with h | h
      · right; exact h
      · left; simp [h]
    · simp [insertA, h0] at h
      rcases h with h | h
      · left; simp [h]
      · rcases ih h with h' | h'
        · left; simp [h']
        · right; exact h'

theorem lookupA_eq_none_of_not_mem {α : Type} (m : List (String × α)) (k : String)
    (h : k ∉ m.map Prod.fst) : lookupA m k = none := by
  induction m with
  | nil => simp [lookupA]
  | cons p rest ih =>
    obtain ⟨k', v'⟩ := p
    have h1 : ¬k' = k := fun he => h (by simp [he])
    have h2 : k ∉ rest.map Prod.fst := fun hm => h (by simp [hm])
    simp [lookupA, h1, ih h2]

/-! ## Injectivity of the decimal value-placeholder encoding -/

theorem charVal_digitChar : ∀ d < 10, charVal (digitChar d) = d := by decide

theorem decode_natDigitsAux : ∀ fuel n acc : Nat, n < 10 ^ fuel →
    List.foldl (fun a c => 10 * a + charVal c) acc (natDigitsAux fuel n)
      = acc * 10 ^ (natDigitsAux fuel n).length + n := by
  intro fuel
  induction fuel with
  | zero =>
    intro n acc h
    interval_cases n
    simp [natDigitsAux]
  | succ fuel ih =>
    intro n acc h
    by_cases h10 : n < 10
    · simp [natDigitsAux, h10, charVal_digitChar n h10, Nat.mul_comm]
    · have hd : n / 10 < 10 ^ fuel := by
        rw [Nat.div_lt_iff_lt_mul (by norm_num)]
        calc n < 10 ^ (fuel + 1) := h
          _ = 10 ^ fuel * 10 := by ring
      have hmod : charVal (digitChar (n % 10)) = n % 10 :=
        charVal_digitChar (n % 10) (Nat.mod_lt _ (by norm_num))
      simp only [natDigitsAux, if_neg h10, List.foldl_append, List.foldl_cons,
        List.foldl_nil, List.length_append, List.length_cons, List.length_nil,
        Nat.zero_add]
      rw [ih (n / 10) acc hd, hmod, pow_succ, ← mul_assoc]
      generalize acc * 10 ^ (natDigitsAux fuel (n / 10)).length = e
      omega

theorem nat_lt_ten_pow_succ (n : Nat) : n < 10 ^ (n + 1) :=
  lt_of_lt_of_le (Nat.lt_pow_self (by norm_num) n)
    (Nat.pow_le_pow_right (by norm_num) (Nat.le_succ n))

theorem natRepr_inj {m n : Nat} (h : natRepr m = natRepr n) : m = n := by
  have hd : natDigitsAux (m + 1) m = natDigitsAux (n + 1) n := congrArg String.data h
  have hm := decode_natDigitsAux (m + 1) m 0 (nat_lt_ten_pow_succ m)
  have hn := decode_natDigitsAux (n + 1) n 0 (nat_lt_ten_pow_succ n)
  rw [hd] at hm
  rw [hm] at hn
  simpa using hn

theorem valKey_inj {m n : Nat} (h : valKey m = valKey n) : m = n := by
  apply natRepr_inj
  apply String.ext
  have hd := congrArg String.data h
  simp only [valKey, String.data_append] at hd
  exact List.append_cancel_left hd

theorem valKey_not_mem_range (n : Nat) : valKey n ∉ (List.range n).map valKey := by
  intro h
  obtain ⟨i, hi, he⟩ := List.mem_map.mp h
  have h1 := valKey_inj he
  have h2 := List.mem_range.mp hi
  omega

/-! ## The value-placeholder counter invariant -/

theorem goodValues_fresh (α : Type) : goodValues (freshBuilder α) := rfl

theorem getValueName_good {α : Type} {s : BuilderState α} (v : α)
    (h : goodValues s) : goodValues (getValueName s v).2 := by
  have hnone : lookupA s.values (valKey s.counter) = none := by
    apply lookupA_eq_none_of_not_mem
    rw [h]
    exact valKey_not_mem_range s.counter
  show (insertA s.values (valKey s.counter) v).map Prod.fst
      = (List.range (s.counter + 1)).map valKey
  rw [insertA_of_lookupA_none _ _ _ hnone, List.map_append, h, List.range_succ,
    List.map_append]
  rfl

theorem applyAttr_good {α : Type} {s : BuilderState α} (attr : String)
    (h : goodValues s) : goodValues (applyAttr s attr).2 := h

theorem compareOp_good {α : Type} {s : BuilderState α} (op attr : String) (v : α)
    (h : goodValues s) : goodValues (compareOp op attr v s).2 :=
  getValueName_good v (applyAttr_good attr h)

theorem fnOp_good {α : Type} {s : BuilderState α} (f attr : String) (v : α)
    (h : goodValues s) : goodValues (fnOp f attr v s).2 :=
  getValueName_good v (applyAttr_good attr h)

theorem sizeCompareOp_good {α : Type} {s : BuilderState α} (op attr : String)
    (v : α) (h : goodValues s) : goodValues (sizeCompareOp op attr v s).2 :=
  getValueName_good v (applyAttr_good attr h)

theorem betweenOp_good {α : Type} {s : BuilderState α} (attr : String) (lo hi : α)
    (h : goodValues s) : goodValues (betweenOp attr lo hi s).2 :=
  getValueName_good hi (getValueName_good lo (applyAttr_good attr h))

theorem allocValues_good {α : Type} (l : List α) :
    ∀ s : BuilderState α, goodValues s → goodValues (allocValues s l).2 := by
  induction l with
  | nil => intro s h; exact h
  | cons v rest ih => intro s h; exact ih _ (getValueName_good v h)

theorem allocValues_counter {α : Type} (l : List α) :
    ∀ s : BuilderState α, (allocValues s l).2.counter = s.counter + l.length := by
  induction l with
  | nil => intro s; rfl
  | cons v rest ih =>
    intro s
    show (allocValues (getValueName s v).2 rest).2.counter = s.counter + (rest.length + 1)
    rw [ih]
    show s.counter + 1 + rest.length = s.counter + (rest.length + 1)
    omega

theorem allocValues_keys {α : Type} (l : List α) :
    ∀ s : BuilderState α,
      (allocValues s l).1 = (List.range l.length).map (fun i => valKey (s.counter + i)) := by
  induction l with
  | nil => intro s; rfl
  | cons v rest ih =>
    intro s
    show valKey s.counter :: (allocValues (getValueName s v).2 rest).1
        = (List.range (rest.length + 1)).map (fun i => valKey (s.counter + i))
    rw [ih, List.range_succ_eq_map, List.map_cons, List.map_map]
    have hfun : ((fun i => valKey ((getValueName s v).2.counter + i)) : Nat → String)
        = (fun i => valKey (s.counter + i)) ∘ Nat.succ := by
      funext i
      show valKey (s.counter + 1 + i) = valKey (s.counter + (i + 1))
      congr 1
      omega
    rw [hfun, Nat.add_zero]

theorem allocValues_preserves_lookup {α : Type} (l : List α) :
    ∀ (s : BuilderState α) (k : String), (∀ j, s.counter ≤ j → k ≠ valKey j) →
      lookupA (allocValues s l).2.values k = lookupA s.values k := by
  induction l with
  | nil => intro s k _; rfl
  | cons v rest ih =>
    intro s k hk
    show lookupA (allocValues (getValueName s v).2 rest).2.values k
        = lookupA s.values k
    rw [ih (getValueName s v).2 k (fun j hj => hk j (by
      show s.counter ≤ j
      exact Nat.le_of_succ_le hj))]
    show lookupA (insertA s.values (valKey s.counter) v) k = lookupA s.values k
    exact lookupA_insertA_ne _ _ _ _ (fun he => hk s.counter (Nat.le_refl _) (by rw [he]))

theorem allocValues_lookup {α : Type} (l : List α) :
    ∀ (s : BuilderState α) (i : Nat) (h : i < l.length),
      lookupA (allocValues s l).2.values (valKey (s.counter + i))
        = some (l.get ⟨i, h⟩) := by
  induction l with
  | nil => intro s i h; exact absurd h (by simp)
  | cons v rest ih =>
    intro s i h
    match i with
    | 0 =>
      show lookupA (allocValues (getValueName s v).2 rest).2.values
          (valKey (s.counter + 0)) = some v
      rw [allocValues_preserves_lookup rest (getValueName s v).2 (valKey (s.counter + 0))
        (fun j hj he => by
          have hj2 : s.counter + 1 ≤ j := hj
          have hval := valKey_inj he
          omega)]
      show lookupA (insertA s.values (valKey s.counter) v) (valKey (s.counter + 0)) = some v
      rw [show s.counter + 0 = s.counter from rfl]
      exact lookupA_insertA_self _ _ _
    | i + 1 =>
      have hlt : i < rest.length := by
        have := h
        simp at this
        omega
      have := ih (getValueName s v).2 i hlt
      rw [show (getValueName s v).2.counter = s.counter + 1 from rfl] at this
      rw [show s.counter + (i + 1) = s.counter + 1 + i by omega]
      exact this

theorem stateAfter_andFrag {α : Type} (s : BuilderState α) (conds : List String) :
    stateAfter s (Op.andFrag conds) = s := by
  unfold stateAfter step logicalOp
  by_cases he : conds.isEmpty <;> simp [he, Except.map]

theorem stateAfter_orFrag {α : Type} (s : BuilderState α) (conds : List String) :
    stateAfter s (Op.orFrag conds) = s := by
  unfold stateAfter step logicalOp
  by_cases he : conds.isEmpty <;> simp [he, Except.map]

theorem stateAfter_inList {α : Type} (s : BuilderState α) (attr : String)
    (vals : List (Option α)) :
    stateAfter s (Op.inListOp attr vals)
      = if (vals.filterMap id).isEmpty then s
        else (allocValues (applyAttr s attr).2 (vals.filterMap id)).2 := by
  unfold stateAfter step inOp
  by_cases he : (vals.filterMap id).isEmpty <;> simp [he]

theorem stateAfter_good {α : Type} {s : BuilderState α} (op : Op α)
    (h : goodValues s) : goodValues (stateAfter s op) := by
  cases op with
  | eqOp a v => exact compareOp_good "=" a v h
  | neOp a v => exact compareOp_good "<>" a v h
  | ltOp a v => exact compareOp_good "<" a v h
  | lteOp a v => exact compareOp_good "<=" a v h
  | gtOp a v => exact compareOp_good ">" a v h
  | gteOp a v => exact compareOp_good ">=" a v h
  | beginsWithOp a v => exact fnOp_good "begins_with" a v h
  | containsOp a v => exact fnOp_good "contains" a v h
  | betweenO a lo hi => exact betweenOp_good a lo hi h
  | inListOp a vs =>
    rw [stateAfter_inList]
    by_cases he : (vs.filterMap id).isEmpty
    · simp [he]; exact h
    · simp [he]; exact allocValues_good _ _ (applyAttr_good a h)
  | existsOp a => exact applyAttr_good a h
  | notExistsOp a => exact applyAttr_good a h
  | attributeTypeOp a v => exact fnOp_good "attribute_type" a v h
  | sizeOp a => exact applyAttr_good a h
  | sizeGtOp a v => exact sizeCompareOp_good ">" a v h
  | sizeLtOp a v => exact sizeCompareOp_good "<" a v h
  | sizeGteOp a v => exact sizeCompareOp_good ">=" a v h
  | sizeLteOp a v => exact sizeCompareOp_good "<=" a v h
  | andFrag conds => rw [stateAfter_andFrag]; exact h
  | orFrag conds => rw [stateAfter_orFrag]; exact h
  | notFrag c => exact h

theorem runOps_good {α : Type} (ops : List (Op α)) :
    ∀ s : BuilderState α, goodValues s → goodValues (runOps s ops) := by
  induction ops with
  | nil => intro s h; exact h
  | cons op rest ih => intro s h; exact ih _ (stateAfter_good op h)

/-- Claim C1: on a freshly created builder, any call sequence allocates value
placeholders `:val0, :val1, …` in strict call order with no gaps and no
reuse; `exists`, `notExists` and `size` never touch the value map or the
counter; `between` advances the counter by two and `in()` by one per
retained (non-undefined) entry. -/
theorem c1_value_placeholder_discipline (α : Type) (ops : List (Op α)) :
    (runOps (freshBuilder α) ops).values.map Prod.fst
      = (List.range (runOps (freshBuilder α) ops).counter).map valKey
    ∧ (∀ (s : BuilderState α) (attr : String),
        (stateAfter s (Op.existsOp attr)).values = s.values
        ∧ (stateAfter s (Op.existsOp attr)).counter = s.counter
        ∧ (stateAfter s (Op.notExistsOp attr)).values = s.values
        ∧ (stateAfter s (Op.notExistsOp attr)).counter = s.counter
        ∧ (stateAfter s (Op.sizeOp attr)).values = s.values
        ∧ (stateAfter s (Op.sizeOp attr)).counter = s.counter)
    ∧ (∀ (s : BuilderState α) (attr : String) (lo hi : α),
        (stateAfter s (Op.betweenO attr lo hi)).counter = s.counter + 2)
    ∧ (∀ (s : BuilderState α) (attr : String) (vals : List (Option α)),
        (stateAfter s (Op.inListOp attr vals)).counter
          = if (vals.filterMap id).isEmpty then s.counter
            else s.counter + (vals.filterMap id).length) := by
  refine ⟨runOps_good ops _ (goodValues_fresh α), ?_, ?_, ?_⟩
  · intro s attr
    exact ⟨rfl, rfl, rfl, rfl, rfl, rfl⟩
  · intro s attr lo hi
    rfl
  · intro s attr vals
    rw [stateAfter_inList]
    by_cases he : (vals.filterMap id).isEmpty
    · rw [if_pos he, if_pos he]
    · rw [if_neg he, if_neg he, allocValues_counter]
      rfl

/-! ## Name-resolution lemmas -/

theorem getAttrName_fst (names : List (String × String)) (attr : String) :
    (getAttrName names attr).1 = attrText attr := by
  unfold getAttrName attrText
  by_cases h : (trimSegments attr).isEmpty
  · rw [if_pos h, if_pos h]
  · rw [if_neg h, if_neg h]

theorem trimSegments_ne (attr : String) : ∀ seg ∈ trimSegments attr, seg ≠ "" := by
  intro seg h
  have := List.mem_filter.mp h
  simpa using this.2

theorem falsyAt_registerSeg_self (names : List (String × String)) (seg : String)
    (h : seg ≠ "") : falsyAt (registerSeg names seg) ("#" ++ seg) = false := by
  unfold registerSeg
  by_cases hf : falsyAt names ("#" ++ seg)
  · rw [if_pos hf]
    unfold falsyAt
    rw [lookupA_insertA_self]
    simp [h]
  · rw [if_neg hf]
    simpa using hf

theorem falsyAt_registerSeg_preserve (names : List (String × String))
    (seg k : String) (h : falsyAt names k = false) :
    falsyAt (registerSeg names seg) k = false := by
  unfold registerSeg
  by_cases hf : falsyAt names ("#" ++ seg)
  · rw [if_pos hf]
    by_cases hk : ("#" ++ seg) = k
    · rw [hk] at hf
      rw [h] at hf
      exact absurd hf (by simp)
    · unfold falsyAt at h ⊢
      rw [lookupA_insertA_ne _ _ _ _ hk]
      exact h
  · rw [if_neg hf]
    exact h

theorem registerSegs_preserve (segs : List String) :
    ∀ (names : List (String × String)) (k : String), falsyAt names k = false →
      falsyAt (registerSegs names segs) k = false := by
  induction segs with
  | nil => intro names k h; exact h
  | cons s rest ih =>
    intro names k h
    exact ih _ _ (falsyAt_registerSeg_preserve names s k h)

theorem registerSegs_establishes (segs : List String) :
    ∀ names : List (String × String), (∀ s ∈ segs, s ≠ "") →
      ∀ seg ∈ segs, falsyAt (registerSegs names segs) ("#" ++ seg) = false := by
  induction segs with
  | nil => intro names _ seg h; exact absurd h (by simp)
  | cons s rest ih =>
    intro names hne seg hmem
    rcases List.mem_cons.mp hmem with h | h
    · subst h
      show falsyAt (registerSegs (registerSeg names seg) rest) ("#" ++ seg) = false
      exact registerSegs_preserve rest _ _
        (falsyAt_registerSeg_self names seg (hne seg (by simp)))
    · exact ih (registerSeg names s) (fun x hx => hne x (by simp [hx])) seg h

theorem registerSeg_of_false (names : List (String × String)) (seg : String)
    (h : falsyAt names ("#" ++ seg) = false) : registerSeg names seg = names := by
  simp [registerSeg, h]

theorem registerSegs_idem (segs : List String) :
    ∀ names : List (String × String),
      (∀ seg ∈ segs, falsyAt names ("#" ++ seg) = false) →
      registerSegs names segs = names := by
  induction segs with
  | nil => intro names _; rfl
  | cons s rest ih =>
    intro names h
    show registerSegs (registerSeg names s) rest = names
    rw [registerSeg_of_false names s (h s (by simp))]
    exact ih names (fun seg hm => h seg (by simp [hm]))

/-- Claim C2: `eq("user.profile.email", "x@y.com")` on a fresh builder yields
exactly `#user.#profile.#email = :val0`, names
`{#user ↦ user, #profile ↦ profile, #email ↦ email}` and values
`{:val0 ↦ "x@y.com"}`. -/
theorem c2_eq_nested_path_scenario :
    step (freshBuilder String) (Op.eqOp "user.profile.email" "x@y.com")
      = .ok ("#user.#profile.#email = :val0",
          ⟨[("#user", "user"), ("#profile", "profile"), ("#email", "email")],
           [(":val0", "x@y.com")], 1⟩) := rfl

/-- Claim C3: resolving the same attribute path twice in the same registry
returns the identical placeholder string both times, and the second
resolution leaves the name map completely unchanged. -/
theorem c3_name_resolution_idempotent (attr : String)
    (names : List (String × String)) :
    (getAttrName (getAttrName names attr).2 attr).1 = (getAttrName names attr).1
    ∧ (getAttrName (getAttrName names attr).2 attr).2 = (getAttrName names attr).2 := by
  constructor
  · rw [getAttrName_fst, getAttrName_fst]
  · unfold getAttrName
    by_cases h : (trimSegments attr).isEmpty
    · rw [if_pos h]
      by_cases hf : falsyAt names "#"
      · rw [if_pos hf]
        have hl : lookupA (insertA names "#" "") "#" = some "" :=
          lookupA_insertA_self _ _ _
        have hf2 : falsyAt (insertA names "#" "") "#" = true := by
          unfold falsyAt
          rw [hl]
          rfl
        rw [if_pos h, if_pos hf2, insertA_of_lookupA_eq _ _ _ hl]
      · rw [if_neg hf, if_pos h, if_neg hf]
    · rw [if_neg h, if_neg h]
      show registerSegs (registerSegs names (trimSegments attr)) (trimSegments attr)
          = registerSegs names (trimSegments attr)
      exact registerSegs_idem _ _
        (registerSegs_establishes _ names (trimSegments_ne attr))

/-- Claim C4: `in()` filters out the undefined entries; an empty input list
fails with a different invalid-argument message than a list that becomes
empty after filtering; otherwise one value placeholder is allocated per
retained entry, in list order, producing `<attrRef> IN (v0, v1, …)` and
binding each retained entry to its placeholder. -/
theorem c4_in_operator (α : Type) (s : BuilderState α) (attr : String)
    (vals : List (Option α)) :
    (vals = [] → step s (Op.inListOp attr vals)
        = .error "in() requires at least one value")
    ∧ (vals ≠ [] → vals.filterMap id = [] → step s (Op.inListOp attr vals)
        = .error "in() requires at least one non-undefined value")
    ∧ ("in() requires at least one value"
        ≠ "in() requires at least one non-undefined value")
    ∧ (∀ (v : α) (rest : List α), vals.filterMap id = v :: rest →
        step s (Op.inListOp attr vals)
          = .ok (attrText attr ++ " IN (" ++
              joinSep ", " ((List.range (v :: rest).length).map
                (fun i => valKey (s.counter + i))) ++ ")",
              (allocValues (applyAttr s attr).2 (v :: rest)).2)
        ∧ (stateAfter s (Op.inListOp attr vals)).counter
            = s.counter + (v :: rest).length
        ∧ ∀ (i : Nat) (hi : i < (v :: rest).length),
            lookupA (stateAfter s (Op.inListOp attr vals)).values
              (valKey (s.counter + i)) = some ((v :: rest).get ⟨i, hi⟩)) := by
  refine ⟨?_, ?_, by decide, ?_⟩
  · intro h
    subst h
    rfl
  · intro hne hf
    show inOp attr vals s = _
    unfold inOp
    rw [hf]
    have : vals.isEmpty = false := by
      cases vals with
      | nil => exact absurd rfl hne
      | cons a l => rfl
    rw [this]
    rfl
  · intro v rest hf
    have hstep : step s (Op.inListOp attr vals)
        = .ok ((applyAttr s attr).1 ++ " IN (" ++
            joinSep ", " (allocValues (applyAttr s attr).2 (v :: rest)).1 ++ ")",
            (allocValues (applyAttr s attr).2 (v :: rest)).2) := by
      show inOp attr vals s = _
      unfold inOp
      rw [hf]
      rfl
    have hsa : stateAfter s (Op.inListOp attr vals)
        = (allocValues (applyAttr s attr).2 (v :: rest)).2 := by
      unfold stateAfter
      rw [hstep]
    refine ⟨?_, ?_, ?_⟩
    · rw [hstep, allocValues_keys]
      have h1 : (applyAttr s attr).1 = attrText attr := getAttrName_fst _ _
      have h2 : (applyAttr s attr).2.counter = s.counter := rfl
      rw [h1, h2]
    · rw [hsa, allocValues_counter]
      rfl
    · intro i hi
      rw [hsa]
      have := allocValues_lookup (v :: rest) (applyAttr s attr).2 i hi
      rw [show (applyAttr s attr).2.counter = s.counter from rfl] at this
      exact this

/-- Witness for C4 at concrete inputs: the two distinct failure messages and
a successful call that filters one `undefined` out of three entries. -/
theorem c4_in_operator_witness :
    step (freshBuilder String) (Op.inListOp "status" ([] : List (Option String)))
      = .error "in() requires at least one value"
    ∧ step (freshBuilder String) (Op.inListOp "status" [(none : Option String), none])
      = .error "in() requires at least one non-undefined value"
    ∧ step (freshBuilder String)
        (Op.inListOp "status" [some "active", none, some "pending"])
      = .ok ("#status IN (:val0, :val1)",
          ⟨[("#status", "status")], [(":val0", "active"), (":val1", "pending")], 2⟩) :=
  ⟨(c4_in_operator String (freshBuilder String) "status" []).1 rfl,
   (c4_in_operator String (freshBuilder String) "status" [none, none]).2.1
     (by decide) rfl,
   ((c4_in_operator String (freshBuilder String) "status"
       [some "active", none, some "pending"]).2.2.2 "active" ["pending"] rfl).1⟩

/-- Claim C5: `and()` and `or()` with zero fragments always throw an
invalid-argument error; with one or more fragments they join with
` AND ` / ` OR ` inside exactly one parenthesis pair, so one fragment gives
`(<fragment>)`.  The builder state is never touched. -/
theorem c5_and_or_arity (α : Type) (s : BuilderState α) :
    step s (Op.andFrag []) = .error "and() requires at least one condition"
    ∧ step s (Op.orFrag []) = .error "or() requires at least one condition"
    ∧ (∀ (c : String) (cs : List String),
        step s (Op.andFrag (c :: cs))
          = .ok ("(" ++ joinSep " AND " (c :: cs) ++ ")", s)
        ∧ step s (Op.orFrag (c :: cs))
          = .ok ("(" ++ joinSep " OR " (c :: cs) ++ ")", s))
    ∧ (∀ c : String,
        step s (Op.andFrag [c]) = .ok ("(" ++ c ++ ")", s)
        ∧ step s (Op.orFrag [c]) = .ok ("(" ++ c ++ ")", s)) :=
  ⟨rfl, rfl, fun _ _ => ⟨rfl, rfl⟩, fun _ => ⟨rfl, rfl⟩⟩

/-! ## The `not` combinator (claim C6) -/

theorem balancedToEnd_getLast (l : List Char) :
    ∀ d : Nat, balancedToEnd l d = true → l.getLast? = some ')' := by
  induction l with
  | nil => intro d h; exact absurd h (by simp [balancedToEnd])
  | cons c rest ih =>
    intro d h
    cases rest with
    | nil =>
      simp [balancedToEnd] at h
      simp [h.1]
    | cons c2 rest2 =>
      rw [List.getLast?_cons_cons]
      by_cases hc : c = ')'
      · by_cases hd : d = 1
        · have hfal : balancedToEnd (c :: c2 :: rest2) d = false := by
            simp [balancedToEnd, hc, hd]
          rw [hfal] at h
          exact absurd h (by simp)
        · have heq : balancedToEnd (c :: c2 :: rest2) d
              = balancedToEnd (c2 :: rest2) (d - 1) := by
            simp [balancedToEnd, hc, hd]
          rw [heq] at h
          exact ih _ h
      · by_cases hp : c = '('
        · have heq : balancedToEnd (c :: c2 :: rest2) d
              = balancedToEnd (c2 :: rest2) (d + 1) := by
            simp [balancedToEnd, hc, hp]
          rw [heq] at h
          exact ih _ h
        · have heq : balancedToEnd (c :: c2 :: rest2) d
              = balancedToEnd (c2 :: rest2) d := by
            simp [balancedToEnd, hc, hp]
          rw [heq] at h
          exact ih _ h

theorem specWhollyWrapped_shape {s : String} (h : specWhollyWrapped s = true) :
    startsWithChar (jsTrim s) '(' = true ∧ endsWithChar (jsTrim s) ')' = true := by
  unfold specWhollyWrapped at h
  cases hdata : (jsTrim s).data with
  | nil => rw [hdata] at h; exact absurd h (by simp)
  | cons c rest =>
    rw [hdata] at h
    rw [Bool.and_eq_true] at h
    have hsplit := h
    have hc : c = '(' := by simpa using hsplit.1
    subst hc
    constructor
    · unfold startsWithChar
      rw [hdata]
      rfl
    · unfold endsWithChar
      rw [hdata]
      cases rest with
      | nil => exact absurd hsplit.2 (by simp [balancedToEnd])
      | cons c2 r2 =>
        rw [List.getLast?_cons_cons]
        exact decide_eq_true (balancedToEnd_getLast _ 1 hsplit.2)

/-- Claim C6 counterexample: `(a) AND (b)` is not wholly wrapped in a single
outer parenthesis pair, yet `not` does not wrap it — it returns
`NOT (a) AND (b)` instead of `NOT ((a) AND (b))`, because the source only
checks the trimmed fragment's first and last characters. -/
theorem c6_not_counterexample :
    specWhollyWrapped "(a) AND (b)" = false
    ∧ notOp "(a) AND (b)" = "NOT (a) AND (b)"
    ∧ notOp "(a) AND (b)" ≠ "NOT ((a) AND (b))" :=
  ⟨by decide, by decide, by decide⟩

/-- Claim C6 (amended): `not(fragment)` returns `NOT ` followed by the
trimmed fragment whenever the trimmed fragment starts with `(` and ends with
`)` — whether or not that pair wraps the whole fragment — and
`NOT (<fragment>)` otherwise.  In particular a fragment wholly wrapped in a
single outer pair reuses that pair, so `not` never double-wraps an
already-wrapped fragment. -/
theorem c6_not_amended (s : String) :
    (specWhollyWrapped s = true → notOp s = "NOT " ++ jsTrim s)
    ∧ (startsWithChar (jsTrim s) '(' = true → endsWithChar (jsTrim s) ')' = true →
        notOp s = "NOT " ++ jsTrim s)
    ∧ ((startsWithChar (jsTrim s) '(' && endsWithChar (jsTrim s) ')') = false →
        notOp s = "NOT (" ++ s ++ ")") := by
  refine ⟨?_, ?_, ?_⟩
  · intro h
    obtain ⟨h1, h2⟩ := specWhollyWrapped_shape h
    simp [notOp, h1, h2]
  · intro h1 h2
    simp [notOp, h1, h2]
  · intro h
    simp [notOp, h]

/-- Witness for the amended C6: a wholly wrapped fragment reuses its pair, a
bare comparison gets wrapped. -/
theorem c6_not_amended_witness :
    notOp "(#a = :val0)" = "NOT " ++ jsTrim "(#a = :val0)"
    ∧ notOp "#a > :val1" = "NOT (" ++ "#a > :val1" ++ ")" :=
  ⟨(c6_not_amended "(#a = :val0)").1 (by decide),
   (c6_not_amended "#a > :val1").2.2 (by decide)⟩

/-! ## The update compiler (claims C7, C8) -/

theorem processUpdates_spec {α : Type} (updates : List (String × Option α)) :
    ∀ acc : UpdateAcc α,
      (processUpdates updates acc).removes
        = acc.removes
          ++ (updates.filter (fun p => p.2.isNone)).map (fun p => updateAttrRef p.1)
      ∧ (processUpdates updates acc).sets
        = acc.sets
          ++ (List.enumFrom acc.counter (keysWithSome updates)).map
              (fun q => updateAttrRef q.2 ++ " = " ++ valKey q.1)
      ∧ (processUpdates updates acc).counter
        = acc.counter + (keysWithSome updates).length := by
  induction updates with
  | nil =>
    intro acc
    refine ⟨by simp [processUpdates], by simp [processUpdates, keysWithSome, List.enumFrom], by
      simp [processUpdates, keysWithSome]⟩
  | cons p rest ih =>
    intro acc
    obtain ⟨key, val⟩ := p
    cases val with
    | none =>
      have hstep : processUpdates ((key, none) :: rest) acc
          = processUpdates rest
              { acc with names := registerSegs acc.names (splitDots key),
                         removes := acc.removes ++ [updateAttrRef key] } := rfl
      rw [hstep]
      obtain ⟨hr, hs, hc⟩ := ih _
      refine ⟨?_, ?_, ?_⟩
      · rw [hr]
        simp [keysWithSome, List.filter_cons]
      · rw [hs]
        simp [keysWithSome]
      · rw [hc]
        simp [keysWithSome]
    | some v =>
      have hstep : processUpdates ((key, some v) :: rest) acc
          = processUpdates rest
              { acc with names := registerSegs acc.names (splitDots key),
                         values := insertA acc.values (valKey acc.counter) v,
                         counter := acc.counter + 1,
                         sets := acc.sets ++ [updateAttrRef key ++ " = " ++ valKey acc.counter] } := rfl
      rw [hstep]
      obtain ⟨hr, hs, hc⟩ := ih _
      refine ⟨?_, ?_, ?_⟩
      · rw [hr]
        simp [keysWithSome, List.filter_cons]
      · rw [hs]
        show (acc.sets ++ [updateAttrRef key ++ " = " ++ valKey acc.counter])
            ++ (List.enumFrom (acc.counter + 1) (keysWithSome rest)).map
                (fun q => updateAttrRef q.2 ++ " = " ++ valKey q.1)
          = acc.sets ++ (List.enumFrom acc.counter (key :: keysWithSome rest)).map
              (fun q => updateAttrRef q.2 ++ " = " ++ valKey q.1)
        rw [List.append_assoc]
        rfl
      · rw [hc]
        show acc.counter + 1 + (keysWithSome rest).length
            = acc.counter + (key :: keysWithSome rest).length
        simp [Nat.add_comm, Nat.add_assoc, Nat.add_left_comm]

/-- Claim C7: compiling `{a: "x", b: null}` yields exactly one SET clause
`#a = :val0`, one REMOVE clause `#b`, a name map with entries for both and a
value map with exactly the binding for `a`; in general every null/missing
field becomes a REMOVE clause and every other field a SET clause, in
insertion order, with SET value placeholders numbered in order. -/
theorem c7_update_set_remove (α : Type) :
    buildUpdateExpression [("a", some "x"), ("b", (none : Option String))] [] []
      = .ok ("SET #a = :val0 REMOVE #b",
          [("#a", "a"), ("#b", "b")], [(":val0", "x")])
    ∧ ∀ (updates : List (String × Option α)) (names : List (String × String))
        (values : List (String × α)),
        (processUpdates updates ⟨[], [], names, values, 0⟩).removes
          = (updates.filter (fun p => p.2.isNone)).map (fun p => updateAttrRef p.1)
        ∧ (processUpdates updates ⟨[], [], names, values, 0⟩).sets
          = (List.enumFrom 0 (keysWithSome updates)).map
              (fun q => updateAttrRef q.2 ++ " = " ++ valKey q.1) := by
  refine ⟨rfl, ?_⟩
  intro updates names values
  obtain ⟨hr, hs, _⟩ := processUpdates_spec updates ⟨[], [], names, values, 0⟩
  exact ⟨by simpa using hr, by simpa using hs⟩

theorem append_ne_empty_left (p x : String) (hp : p.data ≠ []) : p ++ x ≠ "" := by
  intro h
  have hd := congrArg String.data h
  rw [String.data_append] at hd
  exact hp (List.append_eq_nil.mp hd).1

theorem joinSep_head_ne_empty (sep x : String) (xs : List String)
    (hx : x.data ≠ []) : joinSep sep (x :: xs) ≠ "" := by
  cases xs with
  | nil =>
    show x ≠ ""
    intro h
    exact hx (congrArg String.data h)
  | cons y ys =>
    show x ++ sep ++ joinSep sep (y :: ys) ≠ ""
    intro h
    have hd := congrArg String.data h
    rw [String.data_append, String.data_append] at hd
    exact hx (List.append_eq_nil.mp (List.append_eq_nil.mp hd).1).1

/-- Claim C8: compiling an update map with zero keys always fails with the
empty-update error, and a successful compilation never returns an empty
expression string. -/
theorem c8_empty_update_rejected (α : Type) :
    (∀ (names : List (String × String)) (values : List (String × α)),
      buildUpdateExpression ([] : List (String × Option α)) names values
        = .error "UpdateExpression cannot be empty")
    ∧ ∀ (updates : List (String × Option α)) (names : List (String × String))
        (values : List (String × α))
        (out : String × List (String × String) × List (String × α)),
        buildUpdateExpression updates names values = .ok out → out.1 ≠ "" := by
  constructor
  · intro names values
    rfl
  · intro updates names values out h
    unfold buildUpdateExpression at h
    generalize hacc : processUpdates updates ⟨[], [], names, values, 0⟩ = acc at h
    by_cases hs : acc.sets.isEmpty <;> by_cases hr : acc.removes.isEmpty
    · unfold updateParts at h
      rw [if_pos hs, if_pos hr] at h
      simp at h
    · unfold updateParts at h
      rw [if_pos hs, if_neg hr, List.nil_append] at h
      have ha := Except.ok.inj h
      rw [← ha]
      show "REMOVE " ++ joinSep ", " acc.removes ≠ ""
      exact append_ne_empty_left _ _ (by decide)
    · unfold updateParts at h
      rw [if_neg hs, if_pos hr, List.append_nil] at h
      have ha := Except.ok.inj h
      rw [← ha]
      show "SET " ++ joinSep ", " acc.sets ≠ ""
      exact append_ne_empty_left _ _ (by decide)
    · unfold updateParts at h
      rw [if_neg hs, if_neg hr] at h
      have ha := Except.ok.inj h
      rw [← ha]
      show "SET " ++ joinSep ", " acc.sets ++ " "
          ++ joinSep " " ["REMOVE " ++ joinSep ", " acc.removes] ≠ ""
      intro hcontr
      have hd := congrArg String.data hcontr
      rw [String.data_append, String.data_append, String.data_append] at hd
      have h1 := (List.append_eq_nil.mp hd).1
      have h2 := (List.append_eq_nil.mp h1).1
      have h3 := (List.append_eq_nil.mp h2).1
      exact absurd h3 (by decide)

/-- Witness for C8: the empty map fails, and a concrete one-field update
compiles to a non-empty expression. -/
theorem c8_empty_update_witness :
    buildUpdateExpression ([] : List (String × Option String)) [] []
      = .error "UpdateExpression cannot be empty"
    ∧ ("SET #a = :val0" : String) ≠ "" :=
  ⟨(c8_empty_update_rejected String).1 [] [],
   (c8_empty_update_rejected String).2 [("a", some "x")] [] []
     ("SET #a = :val0", [("#a", "a")], [(":val0", "x")]) rfl⟩

/-! ## Placeholder shapes (claim C9) -/

theorem pk_ne_valKey : ∀ n : Nat, (":pk" : String) ≠ valKey n := by
  intro n h
  have hd := congrArg String.data h
  simp only [valKey, String.data_append] at hd
  have hd2 : (':' :: 'p' :: 'k' :: [] : List Char)
      = ':' :: 'v' :: 'a' :: 'l' :: (natRepr n).data := hd
  have := (List.cons.injEq _ _ _ _).mp hd2
  have := (List.cons.injEq _ _ _ _).mp this.2
  exact absurd this.1 (by decide)

theorem not_isValKey_pk : ¬ IsValKey ":pk" := by
  rintro ⟨n, hn⟩
  exact pk_ne_valKey n hn

theorem registerSeg_mem {names : List (String × String)} {seg : String}
    {p : String × String} (h : p ∈ registerSeg names seg) :
    p ∈ names ∨ p.1 = "#" ++ seg := by
  unfold registerSeg at h
  by_cases hf : falsyAt names ("#" ++ seg)
  · rw [if_pos hf] at h
    rcases mem_insertA h with h' | h'
    · exact Or.inl h'
    · right
      rw [h']
  · rw [if_neg hf] at h
    exact Or.inl h

theorem registerSegs_mem (segs : List String) :
    ∀ (names : List (String × String)) (p : String × String),
      p ∈ registerSegs names segs → p ∈ names ∨ IsNameKey p.1 := by
  induction segs with
  | nil => intro names p h; exact Or.inl h
  | cons s rest ih =>
    intro names p h
    rcases ih (registerSeg names s) p h with h' | h'
    · rcases registerSeg_mem h' with h2 | h2
      · exact Or.inl h2
      · exact Or.inr ⟨s, h2⟩
    · exact Or.inr h'

theorem applyAttr_names_mem {α : Type} {s : BuilderState α} {attr : String}
    {p : String × String} (h : p ∈ (applyAttr s attr).2.names) :
    p ∈ s.names ∨ IsNameKey p.1 := by
  have h2 : p ∈ (getAttrName s.names attr).2 := h
  unfold getAttrName at h2
  by_cases he : (trimSegments attr).isEmpty
  · rw [if_pos he] at h2
    by_cases hf : falsyAt s.names "#"
    · rw [if_pos hf] at h2
      rcases mem_insertA h2 with h' | h'
      · exact Or.inl h'
      · right
        refine ⟨"", ?_⟩
        rw [h']
        decide
    · rw [if_neg hf] at h2
      exact Or.inl h2
  · rw [if_neg he] at h2
    exact registerSegs_mem _ _ _ h2

theorem getValueName_values_mem {α : Type} {s : BuilderState α} {v : α}
    {p : String × α} (h : p ∈ (getValueName s v).2.values) :
    p ∈ s.values ∨ IsValKey p.1 := by
  rcases mem_insertA h with h' | h'
  · exact Or.inl h'
  · right
    exact ⟨s.counter, by rw [h']⟩

theorem stateAfter_keys {α : Type} {s : BuilderState α} (op : Op α)
    (hn : ∀ p ∈ s.names, IsNameKey p.1) (hv : ∀ p ∈ s.values, IsValKey p.1) :
    (∀ p ∈ (stateAfter s op).names, IsNameKey p.1)
    ∧ (∀ p ∈ (stateAfter s op).values, IsValKey p.1) := by
  have hname : ∀ (attr : String) (p : String × String),
      p ∈ (applyAttr s attr).2.names → IsNameKey p.1 := by
    intro attr p h
    rcases applyAttr_names_mem h with h' | h'
    · exact hn p h'
    · exact h'
  have hone : ∀ (attr : String) (v : α),
      (∀ p ∈ (getValueName (applyAttr s attr).2 v).2.names, IsNameKey p.1)
      ∧ (∀ p ∈ (getValueName (applyAttr s attr).2 v).2.values, IsValKey p.1) := by
    intro attr v
    constructor
    · intro p h
      exact hname attr p h
    · intro p h
      rcases getValueName_values_mem h with h' | h'
      · exact hv p h'
      · exact h'
  have htwo : ∀ (attr : String) (lo hi : α),
      (∀ p ∈ (getValueName (getValueName (applyAttr s attr).2 lo).2 hi).2.names,
        IsNameKey p.1)
      ∧ (∀ p ∈ (getValueName (getValueName (applyAttr s attr).2 lo).2 hi).2.values,
        IsValKey p.1) := by
    intro attr lo hi
    constructor
    · intro p h
      exact hname attr p h
    · intro p h
      rcases getValueName_values_mem h with h' | h'
      · exact (hone attr lo).2 p h'
      · exact h'
  have halloc : ∀ (l : List α) (t : BuilderState α),
      (∀ p ∈ t.names, IsNameKey p.1) → (∀ p ∈ t.values, IsValKey p.1) →
      (∀ p ∈ (allocValues t l).2.names, IsNameKey p.1)
      ∧ (∀ p ∈ (allocValues t l).2.values, IsValKey p.1) := by
    intro l
    induction l with
    | nil => intro t h1 h2; exact ⟨h1, h2⟩
    | cons v rest ih =>
      intro t h1 h2
      refine ih _ h1 ?_
      intro p h
      rcases getValueName_values_mem h with h' | h'
      · exact h2 p h'
      · exact h'
  cases op with
  | eqOp a v => exact hone a v
  | neOp a v => exact hone a v
  | ltOp a v => exact hone a v
  | lteOp a v => exact hone a v
  | gtOp a v => exact hone a v
  | gteOp a v => exact hone a v
  | beginsWithOp a v => exact hone a v
  | containsOp a v => exact hone a v
  | betweenO a lo hi => exact htwo a lo hi
  | inListOp a vs =>
    rw [stateAfter_inList]
    by_cases he : (vs.filterMap id).isEmpty
    · rw [if_pos he]
      exact ⟨hn, hv⟩
    · rw [if_neg he]
      exact halloc _ _ (hname a) hv
  | existsOp a => exact ⟨hname a, hv⟩
  | notExistsOp a => exact ⟨hname a, hv⟩
  | attributeTypeOp a v => exact hone a v
  | sizeOp a => exact ⟨hname a, hv⟩
  | sizeGtOp a v => exact hone a v
  | sizeLtOp a v => exact hone a v
  | sizeGteOp a v => exact hone a v
  | sizeLteOp a v => exact hone a v
  | andFrag conds => rw [stateAfter_andFrag]; exact ⟨hn, hv⟩
  | orFrag conds => rw [stateAfter_orFrag]; exact ⟨hn, hv⟩
  | notFrag c => exact ⟨hn, hv⟩

theorem runOps_keys {α : Type} (ops : List (Op α)) :
    ∀ s : BuilderState α,
      (∀ p ∈ s.names, IsNameKey p.1) → (∀ p ∈ s.values, IsValKey p.1) →
      (∀ p ∈ (runOps s ops).names, IsNameKey p.1)
      ∧ (∀ p ∈ (runOps s ops).values, IsValKey p.1) := by
  induction ops with
  | nil => intro s h1 h2; exact ⟨h1, h2⟩
  | cons op rest ih =>
    intro s h1 h2
    have := stateAfter_keys op h1 h2
    exact ih _ this.1 this.2

theorem processUpdates_keys {α : Type} (updates : List (String × Option α)) :
    ∀ acc : UpdateAcc α,
      (∀ p ∈ acc.names, IsNameKey p.1) → (∀ p ∈ acc.values, IsValKey p.1) →
      (∀ p ∈ (processUpdates updates acc).names, IsNameKey p.1)
      ∧ (∀ p ∈ (processUpdates updates acc).values, IsValKey p.1) := by
  induction updates with
  | nil => intro acc h1 h2; exact ⟨h1, h2⟩
  | cons q rest ih =>
    intro acc h1 h2
    obtain ⟨key, val⟩ := q
    have hreg : ∀ p ∈ registerSegs acc.names (splitDots key), IsNameKey p.1 := by
      intro p h
      rcases registerSegs_mem _ _ p h with h' | h'
      · exact h1 p h'
      · exact h'
    cases val with
    | none => exact ih _ hreg h2
    | some v =>
      refine ih _ hreg ?_
      intro p h
      rcases mem_insertA h with h' | h'
      · exact h2 p h'
      · exact ⟨acc.counter, by rw [h']⟩

theorem applySKCond_values_mem {α : Type} (skName : String) (s : BuilderState α)
    (c : SKCond α) {p : String × α}
    (h : p ∈ (applySKCond skName s c).2.values) : p ∈ s.values ∨ IsValKey p.1 := by
  cases c with
  | betweenC lo hi =>
    rcases getValueName_values_mem h with h' | h'
    · rcases getValueName_values_mem h' with h2 | h2
      · exact Or.inl h2
      · exact Or.inr h2
    · exact Or.inr h'
  | eqC v => exact getValueName_values_mem h
  | ltC v => exact getValueName_values_mem h
  | lteC v => exact getValueName_values_mem h
  | gtC v => exact getValueName_values_mem h
  | gteC v => exact getValueName_values_mem h
  | beginsWithC v => exact getValueName_values_mem h

theorem applySKCond_names_mem {α : Type} (skName : String) (s : BuilderState α)
    (c : SKCond α) {p : String × String}
    (h : p ∈ (applySKCond skName s c).2.names) : p ∈ s.names ∨ IsNameKey p.1 := by
  cases c with
  | betweenC lo hi => exact applyAttr_names_mem h
  | eqC v => exact applyAttr_names_mem h
  | ltC v => exact applyAttr_names_mem h
  | lteC v => exact applyAttr_names_mem h
  | gtC v => exact applyAttr_names_mem h
  | gteC v => exact applyAttr_names_mem h
  | beginsWithC v => exact applyAttr_names_mem h

/-- Claim C9 counterexample: the key-condition compiler's partition-key
clause uses the fixed value placeholder `:pk`, which does not have the form
`:val<N>`. -/
theorem c9_placeholder_form_counterexample :
    (buildKeyConditionExpression "userId" "u1" none none (freshBuilder String)).1
      = "#userId = :pk"
    ∧ (":pk", "u1") ∈ (buildKeyConditionExpression "userId" "u1" none none
        (freshBuilder String)).2.values
    ∧ ¬ IsValKey ":pk" :=
  ⟨rfl, by decide, not_isValKey_pk⟩

/-- Claim C9 (amended): in every compiled unit every name placeholder is
`#`-prefixed; builder fragments and update plans use value placeholders of
the form `:val<N>`; the key-condition compiler's partition-key clause is
`<pkAttrRef> = :pk`, with the fixed placeholder `:pk` as the only value
placeholder not of that form. -/
theorem c9_placeholder_forms_amended (α : Type) :
    (∀ ops : List (Op α),
      (∀ p ∈ (runOps (freshBuilder α) ops).names, IsNameKey p.1)
      ∧ ∀ p ∈ (runOps (freshBuilder α) ops).values, IsValKey p.1)
    ∧ (∀ updates : List (String × Option α),
      (∀ p ∈ (processUpdates updates ⟨[], [], [], [], 0⟩).names, IsNameKey p.1)
      ∧ ∀ p ∈ (processUpdates updates ⟨[], [], [], [], 0⟩).values, IsValKey p.1)
    ∧ (∀ (pkName : String) (pkValue : α) (skName : Option String)
        (skCond : Option (SKCond α)),
      (∀ p ∈ (buildKeyConditionExpression pkName pkValue skName skCond
          (freshBuilder α)).2.names, IsNameKey p.1)
      ∧ ∀ p ∈ (buildKeyConditionExpression pkName pkValue skName skCond
          (freshBuilder α)).2.values, p.1 = ":pk" ∨ IsValKey p.1)
    ∧ (∀ (pkName : String) (pkValue : α),
      (buildKeyConditionExpression pkName pkValue none none (freshBuilder α)).1
        = "#" ++ pkName ++ " = :pk") := by
  refine ⟨?_, ?_, ?_, ?_⟩
  · intro ops
    exact runOps_keys ops _ (by intro p h; exact absurd h (by simp [freshBuilder]))
      (by intro p h; exact absurd h (by simp [freshBuilder]))
  · intro updates
    exact processUpdates_keys updates _ (by intro p h; exact absurd h (by simp))
      (by intro p h; exact absurd h (by simp))
  · intro pkName pkValue skName skCond
    have hbase_names : ∀ p ∈ [("#" ++ pkName, pkName)], IsNameKey (Prod.fst p) := by
      intro p h
      simp at h
      exact ⟨pkName, by rw [h]⟩
    have hbase_values : ∀ p ∈ [((":pk" : String), pkValue)],
        Prod.fst p = ":pk" ∨ IsValKey (Prod.fst p) := by
      intro p h
      simp at h
      exact Or.inl (by rw [h])
    cases skName with
    | none =>
      cases skCond with
      | none => exact ⟨hbase_names, hbase_values⟩
      | some c => exact ⟨hbase_names, hbase_values⟩
    | some sk =>
      cases skCond with
      | none => exact ⟨hbase_names, hbase_values⟩
      | some c =>
        constructor
        · intro p h
          have h2 : p ∈ (applySKCond sk
              ⟨[("#" ++ pkName, pkName)], [(":pk", pkValue)], 0⟩ c).2.names := h
          rcases applySKCond_names_mem _ _ _ h2 with h' | h'
          · exact hbase_names p h'
          · exact h'
        · intro p h
          have h2 : p ∈ (applySKCond sk
              ⟨[("#" ++ pkName, pkName)], [(":pk", pkValue)], 0⟩ c).2.values := h
          rcases applySKCond_values_mem _ _ _ h2 with h' | h'
          · exact hbase_values p h'
          · exact Or.inr h'
  · intro pkName pkValue
    rfl

/-- Witness for the amended C9 at concrete inputs. -/
theorem c9_placeholder_forms_witness :
    IsNameKey "#status" ∧ IsValKey ":val0"
    ∧ (buildKeyConditionExpression "userId" ("u1" : String) none none
        (freshBuilder String)).1 = "#userId = :pk" :=
  ⟨((c9_placeholder_forms_amended String).1 [Op.eqOp "status" "active"]).1
      ("#status", "status") (by decide),
   ((c9_placeholder_forms_amended String).1 [Op.eqOp "status" "active"]).2
      (":val0", "active") (by decide),
   (c9_placeholder_forms_amended String).2.2.2 "userId" "u1"⟩

/-! ## Last-write-wins merge (claim C10) -/

theorem lookupA_isSome_of_mem {α : Type} (m : List (String × α)) (k : String)
    (h : k ∈ m.map Prod.fst) : ∃ v, lookupA m k = some v := by
  induction m with
  | nil => exact absurd h (by simp)
  | cons p rest ih =>
    obtain ⟨k0, v0⟩ := p
    by_cases h0 : k0 = k
    · exact ⟨v0, by simp [lookupA, h0]⟩
    · have hr : k ∈ rest.map Prod.fst := by
        rcases List.mem_cons.mp h with h' | h'
        · exact absurd h'.symm h0
        · exact h'
      obtain ⟨v, hv⟩ := ih hr
      exact ⟨v, by simp [lookupA, h0, hv]⟩

theorem mem_insertA_ne_key {α : Type} {m : List (String × α)} {k : String} {v : α}
    {p : String × α} (h : p ∈ insertA m k v) (hk : p.1 ≠ k) : p ∈ m := by
  induction m with
  | nil =>
    simp [insertA] at h
    exact absurd (by rw [h]) hk
  | cons q rest ih =>
    obtain ⟨k0, v0⟩ := q
    by_cases h0 : k0 = k
    · rw [show insertA ((k0, v0) :: rest) k v = (k0, v) :: rest by simp [insertA, h0]] at h
      rcases List.mem_cons.mp h with h' | h'
      · exact absurd (by rw [h', h0]) hk
      · exact List.mem_cons_of_mem _ h'
    · rw [show insertA ((k0, v0) :: rest) k v = (k0, v0) :: insertA rest k v by
        simp [insertA, h0]] at h
      rcases List.mem_cons.mp h with h' | h'
      · rw [h']
        exact List.mem_cons_self _ _
      · exact List.mem_cons_of_mem _ (ih h')

theorem mem_insertA_eq_key {α : Type} {m : List (String × α)} {k : String} {v : α}
    {p : String × α} (hnd : (m.map Prod.fst).Nodup) (h : p ∈ insertA m k v)
    (hk : p.1 = k) : p = (k, v) := by
  induction m with
  | nil => simpa [insertA] using h
  | cons q rest ih =>
    obtain ⟨k0, v0⟩ := q
    have hk0r : k0 ∉ rest.map Prod.fst := (List.nodup_cons.mp hnd).1
    have hnd' : (rest.map Prod.fst).Nodup := (List.nodup_cons.mp hnd).2
    by_cases h0 : k0 = k
    · rw [show insertA ((k0, v0) :: rest) k v = (k0, v) :: rest by simp [insertA, h0]] at h
      rcases List.mem_cons.mp h with h' | h'
      · rw [h', h0]
      · have hmem : p.1 ∈ rest.map Prod.fst := List.mem_map_of_mem Prod.fst h'
        rw [hk, ← h0] at hmem
        exact absurd hmem hk0r
    · rw [show insertA ((k0, v0) :: rest) k v = (k0, v0) :: insertA rest k v by
        simp [insertA, h0]] at h
      rcases List.mem_cons.mp h with h' | h'
      · rw [h'] at hk
        exact absurd hk h0
      · exact ih hnd' h'

theorem insertA_keys_sub {α : Type} {m : List (String × α)} {k : String} {v : α}
    {x : String} (h : x ∈ (insertA m k v).map Prod.fst) :
    x ∈ m.map Prod.fst ∨ x = k := by
  obtain ⟨p, hp, hx⟩ := List.mem_map.mp h
  rcases mem_insertA hp with h' | h'
  · exact Or.inl (hx ▸ List.mem_map_of_mem Prod.fst h')
  · right
    rw [← hx, h']

theorem insertA_keys_nodup {α : Type} {m : List (String × α)} (k : String) (v : α)
    (hnd : (m.map Prod.fst).Nodup) : ((insertA m k v).map Prod.fst).Nodup := by
  induction m with
  | nil => simp [insertA]
  | cons q rest ih =>
    obtain ⟨k0, v0⟩ := q
    have hk0 : k0 ∉ rest.map Prod.fst := (List.nodup_cons.mp hnd).1
    have hrest : (rest.map Prod.fst).Nodup := (List.nodup_cons.mp hnd).2
    by_cases h0 : k0 = k
    · rw [show insertA ((k0, v0) :: rest) k v = (k0, v) :: rest by simp [insertA, h0]]
      exact hnd
    · rw [show insertA ((k0, v0) :: rest) k v = (k0, v0) :: insertA rest k v by
        simp [insertA, h0]]
      refine List.nodup_cons.mpr ⟨?_, ih hrest⟩
      intro hx
      rcases insertA_keys_sub hx with h' | h'
      · exact hk0 h'
      · exact h0 h'

theorem mem_mergeLWW {α : Type} (b : List (String × α)) :
    ∀ (a : List (String × α)) (p : String × α), (a.map Prod.fst).Nodup →
      p ∈ mergeLWW a b → p ∈ b ∨ (p ∈ a ∧ p.1 ∉ b.map Prod.fst) := by
  induction b with
  | nil => intro a p _ h; exact Or.inr ⟨h, by simp⟩
  | cons q rest ih =>
    intro a p hnd h
    rcases ih (insertA a q.1 q.2) p (insertA_keys_nodup _ _ hnd) h with h' | ⟨hmem, hnot⟩
    · exact Or.inl (List.mem_cons_of_mem _ h')
    · by_cases hk : p.1 = q.1
      · have hpq : p = (q.1, q.2) := mem_insertA_eq_key hnd hmem hk
        left
        rw [hpq]
        exact List.mem_cons_self _ _
      · right
        refine ⟨mem_insertA_ne_key hmem hk, ?_⟩
        intro hx
        rcases List.mem_cons.mp hx with h2 | h2
        · exact hk h2
        · exact hnot h2

theorem lookupA_mergeLWW {α : Type} (b : List (String × α)) :
    ∀ (a : List (String × α)) (k : String), (b.map Prod.fst).Nodup →
      lookupA (mergeLWW a b) k = (lookupA b k).elim (lookupA a k) some := by
  induction b with
  | nil => intro a k _; rfl
  | cons q rest ih =>
    intro a k hnd
    obtain ⟨k0, v0⟩ := q
    have hq : k0 ∉ rest.map Prod.fst := (List.nodup_cons.mp hnd).1
    have hnd' : (rest.map Prod.fst).Nodup := (List.nodup_cons.mp hnd).2
    show lookupA (mergeLWW (insertA a k0 v0) rest) k = _
    rw [ih _ k hnd']
    by_cases hk : k0 = k
    · have hrest : lookupA rest k = none := by
        apply lookupA_eq_none_of_not_mem
        rw [← hk]
        exact hq
      have hbk : lookupA ((k0, v0) :: rest) k = some v0 := by simp [lookupA, hk]
      rw [hrest, hbk]
      show lookupA (insertA a k0 v0) k = some v0
      rw [← hk]
      exact lookupA_insertA_self _ _ _
    · have hbk : lookupA ((k0, v0) :: rest) k = lookupA rest k := by simp [lookupA, hk]
      rw [hbk]
      cases hr : lookupA rest k with
      | none =>
        show lookupA (insertA a k0 v0) k = lookupA a k
        exact lookupA_insertA_ne _ _ _ _ hk
      | some v => rfl

theorem lookupA_enumFrom_map {α : Type} (w : List α) :
    ∀ (n j : Nat) (h : j < w.length),
      lookupA ((List.enumFrom n w).map (fun q => (valKey q.1, q.2))) (valKey (n + j))
        = some (w.get ⟨j, h⟩) := by
  induction w with
  | nil => intro n j h; exact absurd h (by simp)
  | cons v rest ih =>
    intro n j h
    cases j with
    | zero =>
      show lookupA ((valKey n, v) :: (List.enumFrom (n + 1) rest).map
          (fun q => (valKey q.1, q.2))) (valKey (n + 0)) = some v
      simp [lookupA]
    | succ j =>
      have hne : valKey n ≠ valKey (n + (j + 1)) := fun he => by
        have := valKey_inj he
        omega
      have hstep : lookupA ((valKey n, v) :: (List.enumFrom (n + 1) rest).map
          (fun q => (valKey q.1, q.2))) (valKey (n + (j + 1)))
          = lookupA ((List.enumFrom (n + 1) rest).map
              (fun q => (valKey q.1, q.2))) (valKey (n + (j + 1))) := by
        simp [lookupA, hne]
      have hjl : j < rest.length := by
        have := h
        simp at this
        omega
      show lookupA ((valKey n, v) :: (List.enumFrom (n + 1) rest).map
          (fun q => (valKey q.1, q.2))) (valKey (n + (j + 1)))
          = some ((v :: rest).get ⟨j + 1, h⟩)
      rw [hstep, show n + (j + 1) = (n + 1) + j by omega, ih (n + 1) j hjl]
      rfl

theorem mergeVals_facts {α : Type} (pkValue : α) (w : List α) (fs : BuilderState α)
    (hgood : fs.values.map Prod.fst = (List.range fs.counter).map valKey) :
    (∀ i, i < fs.counter →
      lookupA (mergeLWW ((":pk", pkValue) ::
          (List.enumFrom 0 w).map (fun q => (valKey q.1, q.2))) fs.values) (valKey i)
        = lookupA fs.values (valKey i))
    ∧ lookupA (mergeLWW ((":pk", pkValue) ::
        (List.enumFrom 0 w).map (fun q => (valKey q.1, q.2))) fs.values) ":pk"
      = some pkValue
    ∧ (∀ i, fs.counter ≤ i → ∀ h : i < w.length,
        lookupA (mergeLWW ((":pk", pkValue) ::
          (List.enumFrom 0 w).map (fun q => (valKey q.1, q.2))) fs.values) (valKey i)
          = some (w.get ⟨i, h⟩))
    ∧ (∀ v ∈ w, (∀ i, ∀ h : i < w.length, w.get ⟨i, h⟩ = v → i < fs.counter) →
        v ≠ pkValue → (∀ q ∈ fs.values, q.2 ≠ v) →
        ∀ p ∈ mergeLWW ((":pk", pkValue) ::
          (List.enumFrom 0 w).map (fun q => (valKey q.1, q.2))) fs.values, p.2 ≠ v) := by
  have hinj : Function.Injective valKey := fun a b h => valKey_inj h
  have hndfs : (fs.values.map Prod.fst).Nodup := by
    rw [hgood]
    exact List.Nodup.map hinj (List.nodup_range _)
  refine ⟨?_, ?_, ?_, ?_⟩
  · intro i hi
    rw [lookupA_mergeLWW fs.values _ _ hndfs]
    have hmem : valKey i ∈ fs.values.map Prod.fst := by
      rw [hgood]
      exact List.mem_map_of_mem valKey (List.mem_range.mpr hi)
    obtain ⟨v, hv⟩ := lookupA_isSome_of_mem _ _ hmem
    rw [hv]
    rfl
  · rw [lookupA_mergeLWW fs.values _ _ hndfs]
    have hnone : lookupA fs.values ":pk" = none := by
      apply lookupA_eq_none_of_not_mem
      rw [hgood]
      intro hmem
      obtain ⟨i, _, hi⟩ := List.mem_map.mp hmem
      exact pk_ne_valKey i hi.symm
    rw [hnone]
    rfl
  · intro i hge h
    rw [lookupA_mergeLWW fs.values _ _ hndfs]
    have hnone : lookupA fs.values (valKey i) = none := by
      apply lookupA_eq_none_of_not_mem
      rw [hgood]
      intro hmem
      obtain ⟨j, hj, hje⟩ := List.mem_map.mp hmem
      have h1 := valKey_inj hje
      have h2 := List.mem_range.mp hj
      omega
    rw [hnone]
    have hpk : (":pk" : String) ≠ valKey i := pk_ne_valKey i
    show lookupA ((":pk", pkValue) :: (List.enumFrom 0 w).map
        (fun q => (valKey q.1, q.2))) (valKey i) = some (w.get ⟨i, h⟩)
    have hcons : lookupA ((":pk", pkValue) :: (List.enumFrom 0 w).map
        (fun q => (valKey q.1, q.2))) (valKey i)
        = lookupA ((List.enumFrom 0 w).map
            (fun q => (valKey q.1, q.2))) (valKey i) := by
      simp [lookupA, hpk]
    rw [hcons]
    have h0 := lookupA_enumFrom_map w 0 i h
    rw [show (0 : Nat) + i = i from Nat.zero_add i] at h0
    exact h0
  · intro v hv hidx hvpk hfs p hp
    have hndA : (((":pk", pkValue) ::
        (List.enumFrom 0 w).map (fun q => (valKey q.1, q.2))).map Prod.fst).Nodup := by
      rw [List.map_cons]
      refine List.nodup_cons.mpr ⟨?_, ?_⟩
      · intro hmem
        rw [List.map_map] at hmem
        obtain ⟨q, _, hq⟩ := List.mem_map.mp hmem
        exact pk_ne_valKey q.1 hq.symm
      · rw [List.map_map]
        have hcomp : ((fun p : String × α => p.1) ∘ fun q : Nat × α => (valKey q.1, q.2))
            = valKey ∘ Prod.fst := rfl
        rw [hcomp, ← List.map_map, List.enumFrom_map_fst]
        exact List.Nodup.map hinj (List.nodup_range' 0 w.length)
    rcases mem_mergeLWW fs.values _ p hndA hp with h' | ⟨hmem, hnot⟩
    · exact hfs p h'
    · rcases List.mem_cons.mp hmem with h2 | h2
      · intro he
        rw [h2] at he
        exact hvpk he.symm
      · obtain ⟨q, hq, hpq⟩ := List.mem_map.mp h2
        obtain ⟨qi, qx⟩ := q
        have hb := List.mem_enumFrom hq
        have hkey : p.1 = valKey qi := by rw [← hpq]
        intro he
        have hqlt : qi < w.length := by omega
        have hx : qx = v := by
          rw [← hpq] at he
          exact he
        have hwv : w.get ⟨qi, hqlt⟩ = v := by
          have h3 := hb.2.2
          rw [List.get_eq_getElem, ← hx]
          exact h3.symm
        have hqi : qi < fs.counter := hidx qi hqlt hwv
        have hmemk : p.1 ∈ fs.values.map Prod.fst := by
          rw [hkey, hgood]
          exact List.mem_map_of_mem valKey (List.mem_range.mpr hqi)
        exact absurd hmemk hnot

theorem applySKCond_frag {α : Type} (skName : String) (s : BuilderState α)
    (c : SKCond α) : (applySKCond skName s c).1 = skFragText skName s.counter c := by
  have ha : (applyAttr s skName).1 = attrText skName := getAttrName_fst _ _
  cases c with
  | eqC v =>
    show (applyAttr s skName).1 ++ " " ++ "=" ++ " " ++ valKey s.counter = _
    rw [ha, String.append_assoc (attrText skName) " " "=",
      String.append_assoc (attrText skName) (" " ++ "=") " "]
    rfl
  | ltC v =>
    show (applyAttr s skName).1 ++ " " ++ "<" ++ " " ++ valKey s.counter = _
    rw [ha, String.append_assoc (attrText skName) " " "<",
      String.append_assoc (attrText skName) (" " ++ "<") " "]
    rfl
  | lteC v =>
    show (applyAttr s skName).1 ++ " " ++ "<=" ++ " " ++ valKey s.counter = _
    rw [ha, String.append_assoc (attrText skName) " " "<=",
      String.append_assoc (attrText skName) (" " ++ "<=") " "]
    rfl
  | gtC v =>
    show (applyAttr s skName).1 ++ " " ++ ">" ++ " " ++ valKey s.counter = _
    rw [ha, String.append_assoc (attrText skName) " " ">",
      String.append_assoc (attrText skName) (" " ++ ">") " "]
    rfl
  | gteC v =>
    show (applyAttr s skName).1 ++ " " ++ ">=" ++ " " ++ valKey s.counter = _
    rw [ha, String.append_assoc (attrText skName) " " ">=",
      String.append_assoc (attrText skName) (" " ++ ">=") " "]
    rfl
  | betweenC lo hi =>
    show (applyAttr s skName).1 ++ " BETWEEN " ++ valKey s.counter ++ " AND "
        ++ valKey (s.counter + 1) = _
    rw [ha]
    rfl
  | beginsWithC v =>
    show "begins_with" ++ "(" ++ (applyAttr s skName).1 ++ ", "
        ++ valKey s.counter ++ ")" = _
    rw [ha]
    rfl

/-- Claim C10 counterexample: with a `between` sort-key condition (two value
placeholders) and a filter that allocates only one, the last-write-wins
merge rebinds `:val0` to the filter's value but leaves the sort-key's upper
bound `"hi"` in the payload under `:val1` — the sort-key condition's bound
value is not absent from the payload. -/
theorem c10_merge_counterexample :
    (buildQueryCommand "u" "pkv" (some "s") (some (SKCond.betweenC "lo" "hi"))
        (some (fun b => compareOp "=" "name" "flt" b))).keyConditionExpression
      = "#u = :pk AND #s BETWEEN :val0 AND :val1"
    ∧ (buildQueryCommand "u" "pkv" (some "s") (some (SKCond.betweenC "lo" "hi"))
        (some (fun b => compareOp "=" "name" "flt" b))).filterExpression
      = some "#name = :val0"
    ∧ (buildQueryCommand "u" "pkv" (some "s") (some (SKCond.betweenC "lo" "hi"))
        (some (fun b => compareOp "=" "name" "flt" b))).expressionAttributeValues
      = [(":pk", "pkv"), (":val0", "flt"), (":val1", "hi")]
    ∧ (":val1", "hi") ∈ (buildQueryCommand "u" "pkv" (some "s")
        (some (SKCond.betweenC "lo" "hi"))
        (some (fun b => compareOp "=" "name" "flt" b))).expressionAttributeValues :=
  ⟨rfl, rfl, rfl, by decide⟩

/-- Claim C10 (amended): key-condition builder and filter builder both start
their counters at 0, so the sort-key fragment references `:val0` and the
filter's first placeholder is `:val0`; the last-write-wins merge binds every
`:val<N>` the filter allocated to the filter's value and keeps `:pk` bound
to the partition key; the sort-key binding at each index the filter did not
reach survives in the payload under its `:val<N>`; and a sort-key-bound
value is absent from the payload when every index it is bound at lies below
the filter's allocation count and it is not also bound by the partition key
or the filter. -/
theorem c10_filter_merge_last_write_wins (α : Type) (pkName : String)
    (pkValue : α) (skName : String) (skc : SKCond α) (frag : String)
    (fs : BuilderState α) (out : QueryCommandInput α)
    (hout : out = buildQueryCommand pkName pkValue (some skName) (some skc)
      (some (fun _ => (frag, fs))))
    (hgood : fs.values.map Prod.fst = (List.range fs.counter).map valKey)
    (hk : 1 ≤ fs.counter) :
    out.keyConditionExpression
      = "#" ++ pkName ++ " = :pk AND " ++ skFragText skName 0 skc
    ∧ out.filterExpression = some frag
    ∧ valKey 0 ∈ fs.values.map Prod.fst
    ∧ (∀ i, i < fs.counter →
        lookupA out.expressionAttributeValues (valKey i)
          = lookupA fs.values (valKey i))
    ∧ lookupA out.expressionAttributeValues ":pk" = some pkValue
    ∧ (∀ i, fs.counter ≤ i → ∀ h : i < (skBoundValues skc).length,
        lookupA out.expressionAttributeValues (valKey i)
          = some ((skBoundValues skc).get ⟨i, h⟩))
    ∧ (∀ v ∈ skBoundValues skc,
        (∀ i, ∀ h : i < (skBoundValues skc).length,
          (skBoundValues skc).get ⟨i, h⟩ = v → i < fs.counter) →
        v ≠ pkValue → (∀ q ∈ fs.values, q.2 ≠ v) →
        ∀ p ∈ out.expressionAttributeValues, p.2 ≠ v) := by
  subst hout
  have hbv : (applySKCond skName
      ⟨[("#" ++ pkName, pkName)], [(":pk", pkValue)], 0⟩ skc).2.values
      = (":pk", pkValue) :: (List.enumFrom 0 (skBoundValues skc)).map
          (fun q => (valKey q.1, q.2)) := by
    cases skc <;> rfl
  have hvals : (buildQueryCommand pkName pkValue (some skName) (some skc)
      (some (fun _ => (frag, fs)))).expressionAttributeValues
      = mergeLWW ((":pk", pkValue) :: (List.enumFrom 0 (skBoundValues skc)).map
          (fun q => (valKey q.1, q.2))) fs.values := by
    show mergeLWW (applySKCond skName
        ⟨[("#" ++ pkName, pkName)], [(":pk", pkValue)], 0⟩ skc).2.values fs.values = _
    rw [hbv]
  obtain ⟨hm1, hm2, hmS, hm3⟩ := mergeVals_facts pkValue (skBoundValues skc) fs hgood
  refine ⟨?_, rfl, ?_, ?_, ?_, ?_, ?_⟩
  · show "#" ++ pkName ++ " = :pk" ++ " AND " ++ (applySKCond skName
        ⟨[("#" ++ pkName, pkName)], [(":pk", pkValue)], 0⟩ skc).1 = _
    rw [applySKCond_frag, String.append_assoc ("#" ++ pkName) " = :pk" " AND "]
    rfl
  · rw [hgood]
    exact List.mem_map_of_mem valKey (List.mem_range.mpr hk)
  · intro i hi
    rw [hvals]
    exact hm1 i hi
  · rw [hvals]
    exact hm2
  · intro i hge h
    rw [hvals]
    exact hmS i hge h
  · intro v hv hidx hvpk hfs p hp
    rw [hvals] at hp
    exact hm3 v hv hidx hvpk hfs p hp

/-- Witness for the amended C10 at concrete queries: with a sort-key `eq`
and a one-value filter the filter's value wins at `:val0`, `:pk` keeps the
partition value, and the sort-key's bound value is gone; with a `between`
sort key and the same one-value filter the lower bound (index 0, displaced)
is absent while the upper bound survives under `:val1`. -/
theorem c10_filter_merge_witness :
    (buildQueryCommand "u" "pkv" (some "s") (some (SKCond.eqC "skv"))
        (some (fun _ => ("#name = :val0",
          ⟨[("#name", "name")], [(":val0", "flt")], 1⟩)))).keyConditionExpression
      = "#u = :pk AND " ++ skFragText "s" 0 (SKCond.eqC ("skv" : String))
    ∧ lookupA (buildQueryCommand "u" "pkv" (some "s") (some (SKCond.eqC "skv"))
        (some (fun _ => ("#name = :val0",
          ⟨[("#name", "name")], [(":val0", "flt")], 1⟩)))).expressionAttributeValues
        (valKey 0)
      = lookupA [((":val0" : String), ("flt" : String))] (valKey 0)
    ∧ lookupA (buildQueryCommand "u" "pkv" (some "s") (some (SKCond.eqC "skv"))
        (some (fun _ => ("#name = :val0",
          ⟨[("#name", "name")], [(":val0", "flt")], 1⟩)))).expressionAttributeValues
        ":pk" = some "pkv"
    ∧ (∀ p ∈ (buildQueryCommand "u" "pkv" (some "s") (some (SKCond.eqC "skv"))
        (some (fun _ => ("#name = :val0",
          ⟨[("#name", "name")], [(":val0", "flt")], 1⟩)))).expressionAttributeValues,
        p.2 ≠ "skv")
    ∧ lookupA (buildQueryCommand "u" "pkv" (some "s")
        (some (SKCond.betweenC "lo" "hi"))
        (some (fun _ => ("#name = :val0",
          ⟨[("#name", "name")], [(":val0", "flt")], 1⟩)))).expressionAttributeValues
        (valKey 1) = some "hi"
    ∧ ∀ p ∈ (buildQueryCommand "u" "pkv" (some "s")
        (some (SKCond.betweenC "lo" "hi"))
        (some (fun _ => ("#name = :val0",
          ⟨[("#name", "name")], [(":val0", "flt")], 1⟩)))).expressionAttributeValues,
        p.2 ≠ "lo" := by
  obtain ⟨h1, _, _, h4, h5, _, h7⟩ := c10_filter_merge_last_write_wins String "u" "pkv"
    "s" (SKCond.eqC "skv") "#name = :val0"
    ⟨[("#name", "name")], [(":val0", "flt")], 1⟩ _ rfl (by decide) (by decide)
  obtain ⟨_, _, _, _, _, hS, hA⟩ := c10_filter_merge_last_write_wins String "u" "pkv"
    "s" (SKCond.betweenC "lo" "hi") "#name = :val0"
    ⟨[("#name", "name")], [(":val0", "flt")], 1⟩ _ rfl (by decide) (by decide)
  refine ⟨h1, h4 0 (by decide), h5,
    h7 "skv" (by decide) (fun i h _ => h) (by decide) (by decide),
    hS 1 (by decide) (by decide), hA "lo" (by decide) ?_ (by decide) (by decide)⟩
  intro i h he
  have hlen2 : i < 2 := h
  rcases (by omega : i = 0 ∨ i = 1) with h2 | h2
  · show i < 1
    omega
  · subst h2
    have hget : (skBoundValues (SKCond.betweenC ("lo" : String) "hi")).get ⟨1, h⟩
        = "hi" := rfl
    rw [hget] at he
    exact absurd he (by decide)

end DynamoTable
